import Mathlib

/-!
Verification of the argument-to-query resolution engine of doglog
(`src/args.go`) against its specification.

Modelling conventions:
  * Go strings are Lean `String`s; the byte-level scanning of `args.go`
    only ever inspects ASCII bytes produced by the regexes `[0-9]` and
    `[a-zA-Z]`, so working on `String.data` (lists of characters) is
    faithful.
  * Go `int` on the 64-bit platforms doglog targets is a 64-bit signed
    integer: `strconv.Atoi` reports a range error beyond int64 (modelled
    in `goAtoi`), and arithmetic on the accumulator wraps in two's
    complement (modelled with `wrap64`).
  * `os.Exit(1)` via `invalidArgs` (the shared fatal "report and
    terminate" path) is modelled by `Except.error msg`: a `.error`
    result means the process printed the usage text and terminated.
  * External collaborators that are not part of this repository's
    sources (the `dateparse` library, the `config` package, the current
    time, the current user's home directory, and the state of stdout)
    are collected in an explicit environment record `Env`.
-/

deriving instance DecidableEq for Except

namespace Doglog

/-! Character classes of the Go regexes: `[0-9]` and `[a-zA-Z]` (ASCII). -/

/-- Membership in the regex class `[0-9]` (ASCII codes 48-57). -/
def goIsDigit (c : Char) : Bool := decide (48 ≤ c.toNat ∧ c.toNat ≤ 57)

/-- Membership in the regex class `[a-zA-Z]` (ASCII codes 97-122 and 65-90). -/
def goIsAlpha (c : Char) : Bool :=
  decide ((97 ≤ c.toNat ∧ c.toNat ≤ 122) ∨ (65 ≤ c.toNat ∧ c.toNat ≤ 90))

/-- ASCII lower-casing of one character; agrees with Go `strings.ToLower`
on the one-character ASCII strings it is applied to in `args.go`. -/
def asciiLower (c : Char) : Char :=
  if 65 ≤ c.toNat ∧ c.toNat ≤ 90 then Char.ofNat (c.toNat + 32) else c

/-- Value of a string of decimal digits, most significant first. -/
def digitsVal (l : List Char) : Nat :=
  l.foldl (fun a c => a * 10 + (c.toNat - 48)) 0

/-- The largest value of Go's 64-bit `int` (math.MaxInt64). -/
def int64Max : Int := 9223372036854775807

/-- The smallest value of Go's 64-bit `int` (math.MinInt64). -/
def int64Min : Int := -9223372036854775808

/-- Two's-complement wrap-around of Go's 64-bit signed arithmetic: the
result of an int64 operation, reduced into [int64Min, int64Max]. -/
def wrap64 (x : Int) : Int :=
  (x + 9223372036854775808) % 18446744073709551616 - 9223372036854775808

/-- Go `strconv.Atoi`: an optional sign followed by at least one decimal
digit; anything else is a syntax error and a value outside the int64
range is a range error (both are a non-nil `err`, modelled as `none`). -/
def goAtoi (s : String) : Option Int :=
  match s.data with
  | [] => none
  | c :: cs =>
    let p : Bool × List Char :=
      if c = '+' then (false, cs)
      else if c = '-' then (true, cs)
      else (false, c :: cs)
    if p.2 ≠ [] ∧ p.2.all goIsDigit then
      let v : Int := if p.1 then -(digitsVal p.2 : Int) else (digitsVal p.2 : Int)
      if int64Min ≤ v ∧ v ≤ int64Max then some v else none
    else none

/-! DurationParser: `timeRangeToSeconds` (src/args.go:142-169).

The Go code extracts the segments of the range string with
`regexp.MustCompile("([0-9]*)([a-zA-Z]*)").FindAllString(timeRange, -1)`:
successive maximal runs of digits followed by letters. `findPartsF` is
that scan, written with explicit fuel (one unit per character) so that it
is structurally recursive; `findParts` supplies enough fuel. Go also
emits an empty match at each position holding neither digits nor letters;
those empty strings are dropped here, which is observationally equal
because the accumulation loop ignores every part of length at most 1. -/

/-- One step of the regex scan `([0-9]*)([a-zA-Z]*)`: at a non-empty
position take the maximal digit run then the maximal letter run; if both
are empty (an empty regex match) advance one character. -/
def findPartsF : Nat → List Char → List (List Char)
  | _, [] => []
  | 0, _ :: _ => []
  | fuel + 1, c :: cs =>
    if ((c :: cs).takeWhile goIsDigit).isEmpty &&
        (((c :: cs).dropWhile goIsDigit).takeWhile goIsAlpha).isEmpty then
      findPartsF fuel cs
    else
      ((c :: cs).takeWhile goIsDigit ++
          ((c :: cs).dropWhile goIsDigit).takeWhile goIsAlpha) ::
        findPartsF fuel (((c :: cs).dropWhile goIsDigit).dropWhile goIsAlpha)

/-- The non-empty matches of `([0-9]*)([a-zA-Z]*)` over the whole string. -/
def findParts (s : List Char) : List (List Char) := findPartsF s.length s

/-- Whether a (lower-cased) unit character is one the switch accepts. -/
def isTimeUnit (c : Char) : Bool := c == 's' || c == 'm' || c == 'h' || c == 'd'

/-- The accumulation loop of `timeRangeToSeconds`: parts of length at most
one are skipped; for a longer part the last character is the unit and the
rest the number; a failed `Atoi` (syntax or int64 range) or an unknown
unit is the fatal `invalidArgs(parser, err, "Time range can't be
parsed")` path. The accumulator and the products are Go `int`s, so each
multiplication and addition wraps in 64-bit two's complement. -/
def timeRangeLoop : List (List Char) → Int → Except String Int
  | [], acc => .ok acc
  | part :: rest, acc =>
    if 1 < part.length then
      match goAtoi (String.mk part.dropLast) with
      | none => .error "Time range can't be parsed"
      | some num =>
        match asciiLower ((part.getLast?).getD ' ') with
        | 's' => timeRangeLoop rest (wrap64 (acc + num))
        | 'm' => timeRangeLoop rest (wrap64 (acc + wrap64 (num * 60)))
        | 'h' => timeRangeLoop rest (wrap64 (acc + wrap64 (num * 3600)))
        | 'd' => timeRangeLoop rest (wrap64 (acc + wrap64 (num * 86400)))
        | _ => .error "Time range can't be parsed"
    else
      timeRangeLoop rest acc

/-- DurationParser (Go `timeRangeToSeconds`): converts a compound range
string such as "3d2h30m" into seconds, or terminates fatally. -/
def timeRangeToSeconds (timeRange : String) : Except String Int :=
  timeRangeLoop (findParts timeRange.data) 0

/-- The condition under which the loop body of `timeRangeToSeconds` takes
the fatal path on a given part: the part is long enough to be processed
and its digit group fails `Atoi` or its unit is not one of s, m, h, d. -/
def badPart (part : List Char) : Bool :=
  decide (1 < part.length) &&
    ((goAtoi (String.mk part.dropLast)).isNone ||
      !isTimeUnit (asciiLower ((part.getLast?).getD ' ')))

/-! FlexibleDateParser: `strToDate` (src/args.go:108-140). -/

/-- A point in time, as far as this code observes one: `time.Time` with
the fields the resolution engine reads (`Year()`, the `2006-01-02`
rendering, and the value produced by the date parser). -/
structure DateTime where
  year : Nat
  month : Nat
  day : Nat
  hour : Nat
  minute : Nat
  second : Nat
deriving DecidableEq, Repr

/-- The meridiem alternation `(am|pm|AM|PM)?` of the time-only regex,
applied at the end of the input. -/
def merTail : List Char → Bool
  | [] => true
  | ['a', 'm'] => true
  | ['p', 'm'] => true
  | ['A', 'M'] => true
  | ['P', 'M'] => true
  | _ => false

/-- The tail `([ ]*(am|pm|AM|PM)?)?$` of the time-only regex. -/
def spacesMerTail (cs : List Char) : Bool := merTail (cs.dropWhile (· = ' '))

/-- The tail `(:[0-9]{2})?([ ]*(am|pm|AM|PM)?)?$` of the time-only regex. -/
def optSecondsTail : List Char → Bool
  | ':' :: a :: b :: rest =>
    if goIsDigit a && goIsDigit b then spacesMerTail rest
    else spacesMerTail (':' :: a :: b :: rest)
  | cs => spacesMerTail cs

/-- The tail `[0-9]{2}(:[0-9]{2})?([ ]*(am|pm|AM|PM)?)?$` (minutes on). -/
def minutesTail : List Char → Bool
  | a :: b :: rest => goIsDigit a && goIsDigit b && optSecondsTail rest
  | _ => false

/-- The Go regex `^[0-9]{1,2}:[0-9]{2}(:[0-9]{2})?([ ]*(am|pm|AM|PM)?)?$`
used by `strToDate` to recognise a time-only input. -/
def timeOnlyMatch (s : String) : Bool :=
  match s.data with
  | d1 :: ':' :: rest => goIsDigit d1 && minutesTail rest
  | d1 :: d2 :: ':' :: rest => goIsDigit d1 && goIsDigit d2 && minutesTail rest
  | _ => false

/-- Decimal rendering of a number, padded with zeros to two digits
(the `01` and `02` components of the Go layout `2006-01-02`). -/
def pad2 (n : Nat) : String := if n < 10 then "0" ++ toString n else toString n

/-- Decimal rendering of a year, padded with zeros to four digits
(the `2006` component of the Go layout `2006-01-02`). -/
def pad4 (n : Nat) : String :=
  if n < 10 then "000" ++ toString n
  else if n < 100 then "00" ++ toString n
  else if n < 1000 then "0" ++ toString n
  else toString n

/-- Go `time.Now().Format("2006-01-02")`: the date in YYYY-MM-DD form. -/
def formatDate (d : DateTime) : String :=
  pad4 d.year ++ "-" ++ pad2 d.month ++ "-" ++ pad2 d.day

/-- The string `strToDate` hands to the date parser: the input, with
today's date prepended when the time-only regex matches. -/
def strToDatePre (now : DateTime) (dateStr : String) : String :=
  if timeOnlyMatch dateStr then formatDate now ++ " " ++ dateStr else dateStr

/-- Server connection settings (`config.IniFile`); opaque to the
resolution engine beyond being attached to the options record. -/
structure IniFile where
deriving DecidableEq, Repr

/-- The process environment of one resolution run: the external
collaborators `args.go` consults. `parseLocal` is the third-party
`dateparse.ParseLocal` (`none` = parse error), `loadConfig` is
`config.New`, `stdoutIsTerminal` is whether stdout is really attached to
an interactive terminal (the fact `isTty` is documented to check). -/
structure Env where
  now : DateTime
  parseLocal : String → Option DateTime
  loadConfig : String → Except String IniFile
  homeDir : String
  stdoutIsTerminal : Bool

/-- FlexibleDateParser (Go `strToDate`): empty input resolves to `now`
when `defaultToNow` is set and to absence otherwise; non-empty input is
(possibly) prefixed with today's date, parsed, and a year-zero result is
shifted into the current year by `AddDate(time.Now().Year(), 0, 0)`; a
parse failure is the fatal `invalidArgs` path carrying `errorStr`. -/
def strToDate (env : Env) (dateStr : String) (errorStr : String)
    (defaultToNow : Bool) : Except String (Option DateTime) :=
  if 0 < dateStr.length then
    match env.parseLocal (strToDatePre env.now dateStr) with
    | none => .error errorStr
    | some dt =>
      .ok (some (if dt.year = 0 then { dt with year := dt.year + env.now.year } else dt))
  else if defaultToNow then .ok (some env.now)
  else .ok none

/-! PathResolver: `expandPath` (src/args.go:187-198), with the pieces of
Go `path/filepath` it calls (`Join`, which cleans its result). -/

/-- Split a list at every occurrence of a separator character. -/
def splitChar (sep : Char) : List Char → List (List Char)
  | [] => [[]]
  | c :: cs =>
    if c = sep then [] :: splitChar sep cs
    else
      match splitChar sep cs with
      | [] => [[c]]
      | g :: gs => (c :: g) :: gs

/-- Join groups of characters with a separator between them. -/
def joinChar (sep : Char) : List (List Char) → List Char
  | [] => []
  | [g] => g
  | g :: gs => g ++ sep :: joinChar sep gs

/-- One element of Go `filepath.Clean`, element view: `..` pops the last
kept element (unless it is itself a kept `..`, or the path is rooted and
nothing is left), every other element is kept. The accumulator is the
kept elements in reverse. -/
def cleanStep (rooted : Bool) (acc : List (List Char)) (e : List Char) :
    List (List Char) :=
  if e = ['.', '.'] then
    match acc with
    | [] => if rooted then [] else [['.', '.']]
    | top :: rest => if top = ['.', '.'] then e :: top :: rest else rest
  else e :: acc

/-- Go `filepath.Clean` (unix rules): shortest lexically equivalent path;
empty and self-cancelling inputs become ".". -/
def goClean (path : String) : String :=
  match path.data with
  | [] => "."
  | c :: cs =>
    let rooted := c = '/'
    let elems := (splitChar '/' (c :: cs)).filter
      (fun e => !(e == []) && !(e == ['.']))
    let kept := (elems.foldl (cleanStep rooted) []).reverse
    if rooted then String.mk ('/' :: joinChar '/' kept)
    else if kept = [] then "."
    else String.mk (joinChar '/' kept)

/-- Go `filepath.Join` on two elements: empty elements are skipped, the
rest are joined with "/" and the result cleaned; all-empty input gives "". -/
def goJoin (a b : String) : String :=
  if a.data = [] then (if b.data = [] then "" else goClean b)
  else goClean (String.mk (a.data ++ '/' :: b.data))

/-- Whether the path starts with the two-character sequence "~/"
(Go `strings.HasPrefix(configPath, "~/")`). -/
def hasTildeSlash (p : String) : Bool :=
  match p.data with
  | '~' :: '/' :: _ => true
  | _ => false

/-- PathResolver (Go `expandPath`): a leading "~/" is replaced by the
current user's home directory joined with the remainder (`path[2:]`);
every other path is returned unchanged. -/
def expandPath (homeDir : String) (configPath : String) : String :=
  if hasTildeSlash configPath then goJoin homeDir (String.mk (configPath.data.drop 2))
  else configPath

/-! OptionResolver: `parseArgs` (src/args.go:41-106). -/

/-- DefaultLimit (src/args.go:18). -/
def DefaultLimit : Int := 300

/-- DefaultRange (src/args.go:21). -/
def DefaultRange : String := "2h"

/-- DefaultConfigPath (src/args.go:24). -/
def DefaultConfigPath : String := "~/.doglog"

/-- The raw flag values the argparse library hands to `parseArgs`, after
its own defaulting (`limit` defaults to 300, `timeRange` to "2h",
`configPath` to the expanded default config path). `endStr` models the
`end` flag (whose Go name is a Lean keyword). -/
structure RawArgs where
  service : String
  query : String
  limit : Int
  tail : Bool
  configPath : String
  timeRange : String
  start : String
  endStr : String
  json : Bool
  noColor : Bool
deriving DecidableEq, Repr

/-- The resolved `options` record of `args.go`. -/
structure Options where
  service : String
  query : String
  limit : Int
  tail : Bool
  configPath : String
  timeRange : Int
  startDate : Option DateTime
  endDate : Option DateTime
  json : Bool
  serverConfig : IniFile
  color : Bool
deriving DecidableEq, Repr

/-- Go `isTty` (src/args.go:201-205): the body unconditionally returns
`true`; the `unix.IoctlGetTermios` check of the terminal is commented out
in the source, so the state of stdout is never consulted. -/
def isTty (_ : Env) : Bool := true

/-- OptionResolver (Go `parseArgs`), after argparse has produced the raw
values: resolve the start and end dates, default a non-positive limit,
force tailing off under a start date, merge the service into the query,
convert the range, read the config file; a `.error` is the fatal
`invalidArgs` path (usage text, then `os.Exit(1)`). -/
def parseArgs (env : Env) (raw : RawArgs) : Except String Options :=
  match strToDate env raw.start "The --start date can't be parsed" false with
  | .error e => .error e
  | .ok startDate =>
    match strToDate env raw.endStr "The --end date can't be parsed" true with
    | .error e => .error e
    | .ok endDate =>
      match timeRangeToSeconds raw.timeRange with
      | .error e => .error e
      | .ok range =>
        match env.loadConfig raw.configPath with
        | .error e => .error e
        | .ok cfg =>
          .ok { service := raw.service
                query :=
                  if 0 < raw.service.length then
                    "service:" ++ raw.service ++
                      (if 0 < raw.query.length then " AND " ++ raw.query else "")
                  else raw.query
                limit := if raw.limit ≤ 0 then DefaultLimit else raw.limit
                tail := if startDate.isSome then false else raw.tail
                configPath := raw.configPath
                timeRange := range
                startDate := startDate
                endDate := endDate
                json := raw.json
                serverConfig := cfg
                color := !raw.noColor && isTty env }

/-! A concrete date parser for exercising `strToDate`, and the
specification's (rather than the source's) time-only pattern. -/

/-- Parse a non-empty all-digit group. -/
def parseNatAll (l : List Char) : Option Nat :=
  if l ≠ [] ∧ l.all goIsDigit then some (digitsVal l) else none

/-- Strip a trailing am/pm marker (any letter case), reporting whether
one was found and whether it was pm. -/
def stripMer (t : List Char) : List Char × Option Bool :=
  match t.reverse with
  | m :: a :: rest =>
    if (a = 'a' ∨ a = 'A') ∧ (m = 'm' ∨ m = 'M') then (rest.reverse, some false)
    else if (a = 'p' ∨ a = 'P') ∧ (m = 'm' ∨ m = 'M') then (rest.reverse, some true)
    else (t, none)
  | _ => (t, none)

/-- Interpret an hour against an optional meridiem marker: a marked hour
must lie in 1..12 (12am is 0, 12pm is 12), an unmarked one in 0..23. -/
def applyMer (h : Nat) (mer : Option Bool) : Option Nat :=
  match mer with
  | none => if h ≤ 23 then some h else none
  | some pm =>
    if 1 ≤ h ∧ h ≤ 12 then
      some (if pm then (if h = 12 then 12 else h + 12) else (if h = 12 then 0 else h))
    else none

/-- Modelled from the spec: the external permissive date/time parser
(`dateparse.ParseLocal` of github.com/araddon/dateparse, whose code is
not part of this repository), restricted to the shape this development
feeds it: `YYYY-MM-DD H:MM[:SS][am/pm]` — a calendar date, a space, and
a clock time with optional seconds and optional meridiem marker, per the
spec's "permissive, locale-flexible date/time parser" at step 3 of
FlexibleDateParser. -/
def parseLocalModel (s : String) : Option DateTime :=
  match splitChar ' ' s.data with
  | [d, t] =>
    match splitChar '-' d with
    | [ys, ms, ds] =>
      match parseNatAll ys, parseNatAll ms, parseNatAll ds with
      | some y, some mo, some da =>
        if 1 ≤ mo ∧ mo ≤ 12 ∧ 1 ≤ da ∧ da ≤ 31 then
          match splitChar ':' (stripMer t).1 with
          | [hs, mins] =>
            (do
              let h ← parseNatAll hs
              let mi ← parseNatAll mins
              let hr ← applyMer h (stripMer t).2
              if mi ≤ 59 then pure (DateTime.mk y mo da hr mi 0) else none)
          | [hs, mins, secs] =>
            (do
              let h ← parseNatAll hs
              let mi ← parseNatAll mins
              let se ← parseNatAll secs
              let hr ← applyMer h (stripMer t).2
              if mi ≤ 59 ∧ se ≤ 59 then pure (DateTime.mk y mo da hr mi se) else none)
          | _ => none
        else none
      | _, _, _ => none
    | _ => none
  | _ => none

/-- Formalised from the specification's words, not from the source: the
time-only pattern `H:MM[:SS]` with an optional genuinely case-insensitive
am/pm meridiem marker — identical to `timeOnlyMatch` except that the
meridiem alternation also accepts the mixed-case spellings aM, Am, pM
and Pm. -/
def merTailCI : List Char → Bool
  | [] => true
  | [a, m] =>
    ((a = 'a' ∨ a = 'A') ∨ (a = 'p' ∨ a = 'P')) ∧ (m = 'm' ∨ m = 'M')
  | _ => false

/-- The spec-side variant of `spacesMerTail` with case-insensitive marker. -/
def spacesMerTailCI (cs : List Char) : Bool := merTailCI (cs.dropWhile (· = ' '))

/-- The spec-side variant of `optSecondsTail` with case-insensitive marker. -/
def optSecondsTailCI : List Char → Bool
  | ':' :: a :: b :: rest =>
    if goIsDigit a && goIsDigit b then spacesMerTailCI rest
    else spacesMerTailCI (':' :: a :: b :: rest)
  | cs => spacesMerTailCI cs

/-- The spec-side variant of `minutesTail` with case-insensitive marker. -/
def minutesTailCI : List Char → Bool
  | a :: b :: rest => goIsDigit a && goIsDigit b && optSecondsTailCI rest
  | _ => false

/-- The specification's time-only pattern with a case-insensitive
meridiem marker (claim wording), to compare against `timeOnlyMatch`. -/
def timeOnlyMatchCI (s : String) : Bool :=
  match s.data with
  | d1 :: ':' :: rest => goIsDigit d1 && minutesTailCI rest
  | d1 :: d2 :: ':' :: rest => goIsDigit d1 && goIsDigit d2 && minutesTailCI rest
  | _ => false

example : timeOnlyMatch "1:32pm" = true := by decide
example : timeOnlyMatch "01:32" = true := by decide
example : timeOnlyMatch "1:32:05 PM" = true := by decide
example : timeOnlyMatch "1:32aM" = false := by decide
example : timeOnlyMatchCI "1:32aM" = true := by decide
example : timeOnlyMatch "13:5" = false := by decide
example : timeOnlyMatch "2019-01-04" = false := by decide
example : parseLocalModel "2026-10-11 1:32pm" =
    some ⟨2026, 10, 11, 13, 32, 0⟩ := by decide
example : parseLocalModel "2026-10-11 12:30:00" =
    some ⟨2026, 10, 11, 12, 30, 0⟩ := by decide
example : expandPath "/home/zach" "~/.doglog" = "/home/zach/.doglog" := by decide
example : expandPath "/home/zach" "/etc/~/foo" = "/etc/~/foo" := by decide
example : goClean "/a/b/../c//./d" = "/a/c/d" := by decide

/-! Well-formed duration segments (`<integer><unit>` with a unit in
{s,m,h,d}, case-insensitive), their rendering as strings, and their
value in seconds, for stating the DurationParser contract. -/

/-- The unit characters the contract admits (s, m, h, d in both cases). -/
def unitChars : List Char := ['s', 'S', 'm', 'M', 'h', 'H', 'd', 'D']

/-- The contract's multiplier mapping (s=1, m=60, h=3600, d=86400),
case-insensitively. -/
def unitMult (c : Char) : Int :=
  if asciiLower c = 's' then 1
  else if asciiLower c = 'm' then 60
  else if asciiLower c = 'h' then 3600
  else if asciiLower c = 'd' then 86400
  else 0

/-- One `<integer><unit>` segment: a digit group and a unit character. -/
structure Seg where
  digits : List Char
  unit : Char
deriving DecidableEq, Repr

/-- A segment is well formed when its digit group is a non-empty string
of decimal digits and its unit is one of s, m, h, d in either case. -/
def Seg.wf (g : Seg) : Prop :=
  g.digits ≠ [] ∧ (∀ c ∈ g.digits, goIsDigit c = true) ∧ g.unit ∈ unitChars

instance (g : Seg) : Decidable g.wf := by unfold Seg.wf; infer_instance

/-- The characters of one segment. -/
def Seg.render (g : Seg) : List Char := g.digits ++ [g.unit]

/-- The seconds one segment contributes: its integer value times its
unit's multiplier. -/
def Seg.seconds (g : Seg) : Int := (digitsVal g.digits : Int) * unitMult g.unit

/-- The characters of a list of segments, concatenated with no
separators. -/
def renderAll (l : List Seg) : List Char := (l.map Seg.render).flatten

/-- The sum of the segments' contributions. -/
def segsSeconds (l : List Seg) : Int := (l.map Seg.seconds).sum

lemma digit_not_alpha {c : Char} (h : goIsDigit c = true) : goIsAlpha c = false := by
  simp only [goIsDigit, decide_eq_true_eq] at h
  simp only [goIsAlpha, decide_eq_false_iff_not]
  omega

lemma unit_not_digit {c : Char} (h : c ∈ unitChars) : goIsDigit c = false := by
  fin_cases h <;> decide

lemma unit_alpha {c : Char} (h : c ∈ unitChars) : goIsAlpha c = true := by
  fin_cases h <;> decide

lemma takeWhile_append_all {p : Char → Bool} :
    ∀ {l₁ : List Char} (l₂ : List Char), (∀ a ∈ l₁, p a = true) →
      (l₁ ++ l₂).takeWhile p = l₁ ++ l₂.takeWhile p := by
  intro l₁
  induction l₁ with
  | nil => intro l₂ _; rfl
  | cons a l ih =>
    intro l₂ h
    have ha : p a = true := h a (List.mem_cons_self _ _)
    simp only [List.cons_append, List.takeWhile_cons, ha, ite_true]
    rw [ih l₂ (fun x hx => h x (List.mem_cons_of_mem _ hx))]

lemma dropWhile_append_all {p : Char → Bool} :
    ∀ {l₁ : List Char} (l₂ : List Char), (∀ a ∈ l₁, p a = true) →
      (l₁ ++ l₂).dropWhile p = l₂.dropWhile p := by
  intro l₁
  induction l₁ with
  | nil => intro l₂ _; rfl
  | cons a l ih =>
    intro l₂ h
    have ha : p a = true := h a (List.mem_cons_self _ _)
    simp only [List.cons_append, List.dropWhile_cons, ha, ite_true]
    exact ih l₂ (fun x hx => h x (List.mem_cons_of_mem _ hx))

lemma takeWhile_cons_neg {p : Char → Bool} {a : Char} (l : List Char)
    (h : p a = false) : (a :: l).takeWhile p = [] := by
  simp [List.takeWhile_cons, h]

lemma dropWhile_cons_neg {p : Char → Bool} {a : Char} (l : List Char)
    (h : p a = false) : (a :: l).dropWhile p = a :: l := by
  simp [List.dropWhile_cons, h]

lemma renderAll_cons (g : Seg) (l : List Seg) :
    renderAll (g :: l) = g.digits ++ g.unit :: renderAll l := by
  simp [renderAll, Seg.render]

lemma goAtoi_digits {l : List Char} (hne : l ≠ [])
    (hd : ∀ c ∈ l, goIsDigit c = true)
    (hr : (digitsVal l : Int) ≤ int64Max) :
    goAtoi (String.mk l) = some (digitsVal l : Int) := by
  cases l with
  | nil => exact absurd rfl hne
  | cons c cs =>
    have hc : goIsDigit c = true := hd c (List.mem_cons_self _ _)
    have hcp : ¬c = '+' := by
      intro h; rw [h] at hc; exact absurd hc (by decide)
    have hcm : ¬c = '-' := by
      intro h; rw [h] at hc; exact absurd hc (by decide)
    have hall : (c :: cs).all goIsDigit = true := List.all_eq_true.mpr hd
    have hmin : int64Min ≤ (digitsVal (c :: cs) : Int) := by
      have h0 : (0 : Int) ≤ (digitsVal (c :: cs) : Int) := Int.natCast_nonneg _
      unfold int64Min
      omega
    simp [goAtoi, hcp, hcm, hall, hmin, hr]

lemma wrap64_eq_self {x : Int} (h1 : int64Min ≤ x) (h2 : x ≤ int64Max) :
    wrap64 x = x := by
  unfold wrap64
  unfold int64Min at h1
  unfold int64Max at h2
  omega

lemma unitMult_one_le {c : Char} (h : c ∈ unitChars) : 1 ≤ unitMult c := by
  fin_cases h <;> decide

lemma seg_seconds_nonneg {g : Seg} (h : g.wf) : 0 ≤ g.seconds := by
  have h1 := unitMult_one_le h.2.2
  have h0 : (0 : Int) ≤ (digitsVal g.digits : Int) := Int.natCast_nonneg _
  show 0 ≤ (digitsVal g.digits : Int) * unitMult g.unit
  exact mul_nonneg h0 (by linarith)

lemma segsSeconds_nonneg {l : List Seg} (h : ∀ g ∈ l, Seg.wf g) :
    0 ≤ segsSeconds l := by
  induction l with
  | nil => simp [segsSeconds]
  | cons g l ih =>
    have hg := seg_seconds_nonneg (h g (List.mem_cons_self _ _))
    have hl := ih (fun g' hg' => h g' (List.mem_cons_of_mem _ hg'))
    simp only [segsSeconds, List.map_cons, List.sum_cons] at *
    linarith

lemma renderAll_alpha {l : List Seg} (h : ∀ g ∈ l, Seg.wf g) :
    (renderAll l).takeWhile goIsAlpha = [] ∧
      (renderAll l).dropWhile goIsAlpha = renderAll l := by
  cases l with
  | nil => exact ⟨rfl, rfl⟩
  | cons g l =>
    obtain ⟨hne, hd, -⟩ := h g (List.mem_cons_self _ _)
    rw [renderAll_cons]
    cases hdg : g.digits with
    | nil => exact absurd hdg hne
    | cons d ds =>
      have hda : goIsAlpha d = false :=
        digit_not_alpha (hd d (by rw [hdg]; exact List.mem_cons_self _ _))
      rw [List.cons_append]
      exact ⟨takeWhile_cons_neg _ hda, dropWhile_cons_neg _ hda⟩

lemma findPartsF_renderAll :
    ∀ (l : List Seg) (fuel : Nat), (∀ g ∈ l, Seg.wf g) →
      (renderAll l).length ≤ fuel →
      findPartsF fuel (renderAll l) = l.map Seg.render := by
  intro l
  induction l with
  | nil =>
    intro fuel _ _
    cases fuel <;> rfl
  | cons g l ih =>
    intro fuel hwf hfuel
    obtain ⟨hne, hd, hu⟩ := hwf g (List.mem_cons_self _ _)
    have hwl : ∀ g' ∈ l, Seg.wf g' := fun g' hg' => hwf g' (List.mem_cons_of_mem _ hg')
    cases hdg : g.digits with
    | nil => exact absurd hdg hne
    | cons d ds =>
      have hdall : ∀ c ∈ d :: ds, goIsDigit c = true := by rw [← hdg]; exact hd
      have hr : renderAll (g :: l) = d :: (ds ++ g.unit :: renderAll l) := by
        rw [renderAll_cons, hdg, List.cons_append]
      have hlen : (renderAll (g :: l)).length =
          ds.length + 2 + (renderAll l).length := by
        rw [hr]; simp; omega
      cases fuel with
      | zero => rw [hlen] at hfuel; omega
      | succ f =>
        have htw : (d :: (ds ++ g.unit :: renderAll l)).takeWhile goIsDigit
            = d :: ds := by
          rw [← List.cons_append, takeWhile_append_all _ hdall,
            takeWhile_cons_neg _ (unit_not_digit hu), List.append_nil]
        have hdw : (d :: (ds ++ g.unit :: renderAll l)).dropWhile goIsDigit
            = g.unit :: renderAll l := by
          rw [← List.cons_append, dropWhile_append_all _ hdall,
            dropWhile_cons_neg _ (unit_not_digit hu)]
        have hta : (g.unit :: renderAll l).takeWhile goIsAlpha = [g.unit] := by
          rw [List.takeWhile_cons, unit_alpha hu, if_pos rfl, (renderAll_alpha hwl).1]
        have hda : (g.unit :: renderAll l).dropWhile goIsAlpha = renderAll l := by
          rw [List.dropWhile_cons, unit_alpha hu, if_pos rfl, (renderAll_alpha hwl).2]
        rw [hr]
        rw [show findPartsF (f + 1) (d :: (ds ++ g.unit :: renderAll l)) =
            if ((d :: (ds ++ g.unit :: renderAll l)).takeWhile goIsDigit).isEmpty &&
                (((d :: (ds ++ g.unit :: renderAll l)).dropWhile goIsDigit).takeWhile
                  goIsAlpha).isEmpty then
              findPartsF f (ds ++ g.unit :: renderAll l)
            else
              ((d :: (ds ++ g.unit :: renderAll l)).takeWhile goIsDigit ++
                  ((d :: (ds ++ g.unit :: renderAll l)).dropWhile goIsDigit).takeWhile
                    goIsAlpha) ::
                findPartsF f
                  (((d :: (ds ++ g.unit :: renderAll l)).dropWhile goIsDigit).dropWhile
                    goIsAlpha)
          from rfl]
        rw [htw, hdw, hta, hda]
        simp only [List.isEmpty_cons, Bool.false_and, Bool.false_eq_true, if_false]
        have hf : (renderAll l).length ≤ f := by rw [hlen] at hfuel; omega
        rw [ih f hwl hf, List.map_cons, Seg.render, hdg, List.cons_append]

lemma timeRangeLoop_render :
    ∀ (l : List Seg) (acc : Int), (∀ g ∈ l, Seg.wf g) → 0 ≤ acc →
      acc + segsSeconds l ≤ int64Max →
      timeRangeLoop (l.map Seg.render) acc = .ok (acc + segsSeconds l) := by
  intro l
  induction l with
  | nil =>
    intro acc _ _ _
    simp [timeRangeLoop, segsSeconds]
  | cons g l ih =>
    intro acc hwf hacc hmax
    obtain ⟨gd, gu⟩ := g
    obtain ⟨hne, hd, hu⟩ := hwf _ (List.mem_cons_self _ _)
    have hwl : ∀ g' ∈ l, Seg.wf g' := fun g' hg' => hwf g' (List.mem_cons_of_mem _ hg')
    simp only at hne hd hu
    have hlen : 1 < (gd ++ [gu]).length := by
      cases gd with
      | nil => exact absurd rfl hne
      | cons x xs => simp
    have hm1 : 1 ≤ unitMult gu := unitMult_one_le hu
    have hdv0 : (0 : Int) ≤ (digitsVal gd : Int) := Int.natCast_nonneg _
    have hrest0 : 0 ≤ segsSeconds l := segsSeconds_nonneg hwl
    have hsum : segsSeconds (⟨gd, gu⟩ :: l) =
        (digitsVal gd : Int) * unitMult gu + segsSeconds l := by
      simp [segsSeconds, Seg.seconds]
    have hprod0 : 0 ≤ (digitsVal gd : Int) * unitMult gu :=
      mul_nonneg hdv0 (by linarith)
    have hprod_le : (digitsVal gd : Int) * unitMult gu ≤ int64Max := by
      rw [hsum] at hmax
      linarith
    have hdv_le : (digitsVal gd : Int) ≤ int64Max := by
      have := le_mul_of_one_le_right hdv0 hm1
      linarith
    have hmin0 : ∀ y : Int, 0 ≤ y → int64Min ≤ y := by
      intro y hy
      unfold int64Min
      omega
    have hatoi : goAtoi (String.mk gd) = some (digitsVal gd : Int) :=
      goAtoi_digits hne hd hdv_le
    have e1 : wrap64 ((digitsVal gd : Int) * unitMult gu) =
        (digitsVal gd : Int) * unitMult gu :=
      wrap64_eq_self (hmin0 _ hprod0) hprod_le
    have e2 : wrap64 (acc + (digitsVal gd : Int) * unitMult gu) =
        acc + (digitsVal gd : Int) * unitMult gu := by
      refine wrap64_eq_self (hmin0 _ (by linarith)) ?_
      rw [hsum] at hmax
      linarith
    have e3 : wrap64 (acc + (digitsVal gd : Int)) = acc + (digitsVal gd : Int) := by
      have hm := le_mul_of_one_le_right hdv0 hm1
      refine wrap64_eq_self (hmin0 _ (by linarith)) ?_
      rw [hsum] at hmax
      linarith
    have hstep : timeRangeLoop ((gd ++ [gu]) :: l.map Seg.render) acc =
        timeRangeLoop (l.map Seg.render)
          (acc + (digitsVal gd : Int) * unitMult gu) := by
      fin_cases hu
      · rw [show unitMult 's' = 1 from by decide] at e1 e2 ⊢
        rw [Int.mul_one] at e1 e2 ⊢
        simp only [timeRangeLoop, hlen, if_true, List.dropLast_concat,
          List.getLast?_concat, Option.getD_some, hatoi]
        rw [e3]
        rfl
      · rw [show unitMult 'S' = 1 from by decide] at e1 e2 ⊢
        rw [Int.mul_one] at e1 e2 ⊢
        simp only [timeRangeLoop, hlen, if_true, List.dropLast_concat,
          List.getLast?_concat, Option.getD_some, hatoi]
        rw [e3]
        rfl
      · rw [show unitMult 'm' = 60 from by decide] at e1 e2 ⊢
        simp only [timeRangeLoop, hlen, if_true, List.dropLast_concat,
          List.getLast?_concat, Option.getD_some, hatoi]
        rw [e1, e2]
        rfl
      · rw [show unitMult 'M' = 60 from by decide] at e1 e2 ⊢
        simp only [timeRangeLoop, hlen, if_true, List.dropLast_concat,
          List.getLast?_concat, Option.getD_some, hatoi]
        rw [e1, e2]
        rfl
      · rw [show unitMult 'h' = 3600 from by decide] at e1 e2 ⊢
        simp only [timeRangeLoop, hlen, if_true, List.dropLast_concat,
          List.getLast?_concat, Option.getD_some, hatoi]
        rw [e1, e2]
        rfl
      · rw [show unitMult 'H' = 3600 from by decide] at e1 e2 ⊢
        simp only [timeRangeLoop, hlen, if_true, List.dropLast_concat,
          List.getLast?_concat, Option.getD_some, hatoi]
        rw [e1, e2]
        rfl
      · rw [show unitMult 'd' = 86400 from by decide] at e1 e2 ⊢
        simp only [timeRangeLoop, hlen, if_true, List.dropLast_concat,
          List.getLast?_concat, Option.getD_some, hatoi]
        rw [e1, e2]
        rfl
      · rw [show unitMult 'D' = 86400 from by decide] at e1 e2 ⊢
        simp only [timeRangeLoop, hlen, if_true, List.dropLast_concat,
          List.getLast?_concat, Option.getD_some, hatoi]
        rw [e1, e2]
        rfl
    rw [List.map_cons, show Seg.render ⟨gd, gu⟩ = gd ++ [gu] from rfl, hstep,
      ih _ hwl (by linarith) (by rw [hsum] at hmax; linarith), hsum,
      Int.add_assoc]

/-- DurationParser contract over well-formed segment lists whose total
fits Go's 64-bit int (so no Atoi range error and no accumulator wrap):
the parser of the rendered string returns the sum of the segments'
contributions. -/
lemma timeRange_renderAll {l : List Seg} (h : ∀ g ∈ l, Seg.wf g)
    (hb : segsSeconds l ≤ int64Max) :
    timeRangeToSeconds (String.mk (renderAll l)) = .ok (segsSeconds l) := by
  have hdata : (String.mk (renderAll l)).data = renderAll l := rfl
  rw [timeRangeToSeconds, hdata, findParts,
    findPartsF_renderAll l (renderAll l).length h (Nat.le_refl _),
    timeRangeLoop_render l 0 h (le_refl 0) (by simpa using hb), Int.zero_add]

lemma renderAll_append (la lb : List Seg) :
    renderAll (la ++ lb) = renderAll la ++ renderAll lb := by
  simp [renderAll]

lemma segsSeconds_append (la lb : List Seg) :
    segsSeconds (la ++ lb) = segsSeconds la + segsSeconds lb := by
  simp [segsSeconds]

/-- A list of parts holding a bad one makes the accumulation loop take
the fatal path, whatever the accumulator. -/
lemma timeRangeLoop_err :
    ∀ (parts : List (List Char)) (acc : Int), (∃ p ∈ parts, badPart p = true) →
      timeRangeLoop parts acc = .error "Time range can't be parsed" := by
  intro parts
  induction parts with
  | nil =>
    intro acc h
    obtain ⟨p, hp, -⟩ := h
    exact absurd hp (List.not_mem_nil p)
  | cons q rest ih =>
    intro acc h
    by_cases hq : badPart q = true
    · have hlen : 1 < q.length := by
        simp only [badPart, Bool.and_eq_true, decide_eq_true_eq] at hq
        exact hq.1
      have hbad : (goAtoi (String.mk q.dropLast)).isNone = true ∨
          isTimeUnit (asciiLower ((q.getLast?).getD ' ')) = false := by
        simp only [badPart, Bool.and_eq_true, decide_eq_true_eq, Bool.or_eq_true,
          Bool.not_eq_true'] at hq
        exact hq.2
      simp only [timeRangeLoop, hlen, if_true]
      split
      · rfl
      · rename_i num heq
        rcases hbad with hb | hb
        · rw [heq] at hb
          simp at hb
        · split
          · rename_i harm
            rw [harm] at hb
            exact absurd hb (by decide)
          · rename_i harm
            rw [harm] at hb
            exact absurd hb (by decide)
          · rename_i harm
            rw [harm] at hb
            exact absurd hb (by decide)
          · rename_i harm
            rw [harm] at hb
            exact absurd hb (by decide)
          · rfl
    · have hrest : ∃ p ∈ rest, badPart p = true := by
        obtain ⟨p, hp, hbp⟩ := h
        rcases List.mem_cons.mp hp with rfl | hp'
        · exact absurd hbp hq
        · exact ⟨p, hp', hbp⟩
      by_cases hlen : 1 < q.length
      · simp only [timeRangeLoop, hlen, if_true]
        split
        · rename_i heq
          exact absurd (by simp [badPart, hlen, heq]) hq
        · rename_i num heq
          split
          · exact ih _ hrest
          · exact ih _ hrest
          · exact ih _ hrest
          · exact ih _ hrest
          · rename_i c h1 h2 h3 h4
            refine absurd (a := badPart q = true) ?_ hq
            simp only [badPart, hlen, decide_eq_true_eq, heq, isTimeUnit]
            simp only [beq_iff_eq, Bool.or_eq_true, Bool.and_eq_true, Bool.not_eq_true,
              decide_eq_true_eq]
            simp
            exact ⟨⟨⟨h1, h2⟩, h3⟩, h4⟩
      · simp only [timeRangeLoop, hlen, if_false]
        exact ih _ hrest

/-- Characterisation of a successful resolution run: each sub-resolution
succeeded and the options record is built from their results exactly as
`parseArgs` builds it. -/
lemma parseArgs_ok_iff (env : Env) (raw : RawArgs) (opts : Options) :
    parseArgs env raw = .ok opts ↔
      ∃ sd ed rng cfg,
        strToDate env raw.start "The --start date can't be parsed" false = .ok sd ∧
        strToDate env raw.endStr "The --end date can't be parsed" true = .ok ed ∧
        timeRangeToSeconds raw.timeRange = .ok rng ∧
        env.loadConfig raw.configPath = .ok cfg ∧
        opts = { service := raw.service
                 query :=
                   if 0 < raw.service.length then
                     "service:" ++ raw.service ++
                       (if 0 < raw.query.length then " AND " ++ raw.query else "")
                   else raw.query
                 limit := if raw.limit ≤ 0 then DefaultLimit else raw.limit
                 tail := if sd.isSome then false else raw.tail
                 configPath := raw.configPath
                 timeRange := rng
                 startDate := sd
                 endDate := ed
                 json := raw.json
                 serverConfig := cfg
                 color := !raw.noColor && isTty env } := by
  unfold parseArgs
  cases hsd : strToDate env raw.start "The --start date can't be parsed" false with
  | error e =>
    constructor
    · intro hcontra
      exact Except.noConfusion hcontra
    · rintro ⟨sd, ed, rng, cfg, h1, -⟩
      exact Except.noConfusion h1
  | ok sd =>
    cases hed : strToDate env raw.endStr "The --end date can't be parsed" true with
    | error e =>
      constructor
      · intro hcontra
        exact Except.noConfusion hcontra
      · rintro ⟨sd', ed', rng', cfg', -, h2, -⟩
        exact Except.noConfusion h2
    | ok ed =>
      cases hrg : timeRangeToSeconds raw.timeRange with
      | error e =>
        constructor
        · intro hcontra
          exact Except.noConfusion hcontra
        · rintro ⟨sd', ed', rng', cfg', -, -, h3, -⟩
          exact Except.noConfusion h3
      | ok rng =>
        cases hcf : env.loadConfig raw.configPath with
        | error e =>
          constructor
          · intro hcontra
            exact Except.noConfusion hcontra
          · rintro ⟨sd', ed', rng', cfg', -, -, -, h4, -⟩
            exact Except.noConfusion h4
        | ok cfg =>
          constructor
          · intro h
            refine ⟨sd, ed, rng, cfg, rfl, rfl, rfl, rfl, ?_⟩
            injection h with h'
            exact h'.symm
          · rintro ⟨sd', ed', rng', cfg', h1, h2, h3, h4, h5⟩
            injection h1 with e1
            injection h2 with e2
            injection h3 with e3
            injection h4 with e4
            subst e1
            subst e2
            subst e3
            subst e4
            rw [h5]

/-- A successful `strToDate` with `defaultToNow` set never returns
absence: non-empty input yields the parsed date and empty input `now`. -/
lemma strToDate_defaultToNow_some {env : Env} {s e : String} {r : Option DateTime}
    (h : strToDate env s e true = .ok r) : r.isSome = true := by
  unfold strToDate at h
  by_cases hl : 0 < s.length
  · rw [if_pos hl] at h
    cases hp : env.parseLocal (strToDatePre env.now s) with
    | none => rw [hp] at h; cases h
    | some dt =>
      rw [hp] at h
      cases h
      rfl
  · rw [if_neg hl] at h
    simp only [if_true] at h
    cases h
    rfl

/-! Concrete runs used by the witnesses. -/

/-- A sample current moment for concrete resolution runs. -/
def nowW : DateTime := ⟨2026, 10, 11, 9, 0, 0⟩

/-- A sample environment: the modelled external date parser, a config
loader that succeeds, and stdout attached to a terminal. -/
def envW : Env :=
  { now := nowW
    parseLocal := parseLocalModel
    loadConfig := fun _ => .ok ⟨⟩
    homeDir := "/home/zach"
    stdoutIsTerminal := true }

/-- The sample environment with stdout redirected away from a terminal. -/
def envRedir : Env := { envW with stdoutIsTerminal := false }

/-- A baseline raw argument set with every optional string empty and the
argparse defaults filled in. -/
def rawBase : RawArgs :=
  { service := "", query := "", limit := 300, tail := false
    configPath := "/home/zach/.doglog", timeRange := "2h"
    start := "", endStr := "", json := false, noColor := false }

/-- The options the baseline raw arguments resolve to under `envW`. -/
def optsBase : Options :=
  { service := "", query := "", limit := 300, tail := false
    configPath := "/home/zach/.doglog", timeRange := 7200
    startDate := none, endDate := some nowW, json := false
    serverConfig := ⟨⟩, color := true }

example : parseArgs envW rawBase = .ok optsBase := by rfl

example : timeRangeToSeconds "" = .ok 0 := by decide
example : timeRangeToSeconds "2h" = .ok 7200 := by decide
example : timeRangeToSeconds "1d2h30m" = .ok 95400 := by decide
example : timeRangeToSeconds "3d2h30m" = .ok 268200 := by decide
example : timeRangeToSeconds "1h1h" = .ok 7200 := by decide
example : timeRangeToSeconds "5x" = .error "Time range can't be parsed" := by decide
example : timeRangeToSeconds "2H" = .ok 7200 := by decide
example : timeRangeToSeconds "2h!30m" = .ok 9000 := by decide

/-! The claims. -/

/-- C1: in every successful resolution run with a non-empty service
value, the resolved query is "service:" followed by the service value,
extended by " AND " followed by the free-text query when that query is
non-empty; with an empty service value the query passes through
unchanged. -/
theorem query_service_merge (env : Env) (raw : RawArgs) (opts : Options)
    (h : parseArgs env raw = .ok opts) :
    (0 < raw.service.length →
      opts.query = "service:" ++ raw.service ++
        (if 0 < raw.query.length then " AND " ++ raw.query else "")) ∧
    (raw.service.length = 0 → opts.query = raw.query) := by
  rw [parseArgs_ok_iff] at h
  obtain ⟨sd, ed, rng, cfg, -, -, -, -, rfl⟩ := h
  constructor
  · intro hs
    show (if 0 < raw.service.length then
        "service:" ++ raw.service ++
          (if 0 < raw.query.length then " AND " ++ raw.query else "")
      else raw.query) = _
    rw [if_pos hs]
  · intro hs
    show (if 0 < raw.service.length then
        "service:" ++ raw.service ++
          (if 0 < raw.query.length then " AND " ++ raw.query else "")
      else raw.query) = _
    rw [if_neg (by omega)]

/-- The raw arguments of the spec's service-merge example. -/
def rawC1 : RawArgs := { rawBase with service := "send-email", query := "status:error" }

/-- The options `rawC1` resolves to under `envW`. -/
def optsC1 : Options :=
  { optsBase with service := "send-email", query := "service:send-email AND status:error" }

/-- Witness for C1 at the spec's example: service "send-email" with
query "status:error" resolves to "service:send-email AND status:error". -/
theorem query_service_merge_check :
    optsC1.query = "service:send-email AND status:error" :=
  ((query_service_merge envW rawC1 optsC1 (by rfl)).1 (by decide)).trans (by decide)

/-- C2: in every successful resolution run whose start time resolved to a
present value, the resolved tail flag is false, whatever the user's tail
flag was. -/
theorem start_forces_tail_off (env : Env) (raw : RawArgs) (opts : Options)
    (h : parseArgs env raw = .ok opts) (hs : opts.startDate.isSome = true) :
    opts.tail = false := by
  rw [parseArgs_ok_iff] at h
  obtain ⟨sd, ed, rng, cfg, -, -, -, -, rfl⟩ := h
  show (if sd.isSome = true then false else raw.tail) = false
  rw [if_pos hs]

/-- Raw arguments with an absolute start time and the tail flag set. -/
def rawC2 : RawArgs := { rawBase with start := "1:32pm", tail := true }

/-- The options `rawC2` resolves to under `envW`. -/
def optsC2 : Options :=
  { optsBase with tail := false, startDate := some ⟨2026, 10, 11, 13, 32, 0⟩ }

/-- Witness for C2: with start "1:32pm" and the tail flag set, the
resolved tail flag is false. -/
theorem start_forces_tail_off_check : optsC2.tail = false ∧ rawC2.tail = true :=
  ⟨start_forces_tail_off envW rawC2 optsC2 (by rfl) (by rfl), by rfl⟩

/-- C3 counterexample: "99999999999999999999s" is a single well-formed
`<integer><unit>` segment string, so the claim asserts the parser
returns its sum 99999999999999999999; the digit group exceeds Go's
int64, `strconv.Atoi` reports a range error, and the program takes the
fatal path instead of returning a value. -/
theorem duration_sum_out_of_range :
    (∀ g ∈ [Seg.mk ['9', '9', '9', '9', '9', '9', '9', '9', '9', '9',
        '9', '9', '9', '9', '9', '9', '9', '9', '9', '9'] 's'], Seg.wf g) ∧
    String.mk (renderAll [Seg.mk ['9', '9', '9', '9', '9', '9', '9', '9', '9', '9',
        '9', '9', '9', '9', '9', '9', '9', '9', '9', '9'] 's']) =
      "99999999999999999999s" ∧
    segsSeconds [Seg.mk ['9', '9', '9', '9', '9', '9', '9', '9', '9', '9',
        '9', '9', '9', '9', '9', '9', '9', '9', '9', '9'] 's'] =
      99999999999999999999 ∧
    timeRangeToSeconds "99999999999999999999s" =
      .error "Time range can't be parsed" :=
  ⟨by decide, by decide, by decide, by decide⟩

/-- C3 as amended: over every string made of well-formed
`<integer><unit>` segments (units s, m, h, d, case-insensitive, with
multipliers 1, 60, 3600, 86400) whose total fits Go's signed 64-bit int,
the DurationParser returns the sum over segments of value times
multiplier; beyond that bound the program either errors (digit group
over int64) or wraps in 64-bit arithmetic. In particular "" gives 0,
"2h" gives 7200 and "1d2h30m" gives 95400. -/
theorem duration_sums_segments :
    (∀ l : List Seg, (∀ g ∈ l, Seg.wf g) → segsSeconds l ≤ int64Max →
      timeRangeToSeconds (String.mk (renderAll l)) = .ok (segsSeconds l)) ∧
    timeRangeToSeconds "" = .ok 0 ∧
    timeRangeToSeconds "2h" = .ok 7200 ∧
    timeRangeToSeconds "1d2h30m" = .ok 95400 :=
  ⟨fun _ h hb => timeRange_renderAll h hb, by decide, by decide, by decide⟩

/-- Witness for C3 at the segments 1d, 2h, 30m. -/
theorem duration_sums_segments_check :
    timeRangeToSeconds
        (String.mk (renderAll [⟨['1'], 'd'⟩, ⟨['2'], 'h'⟩, ⟨['3', '0'], 'm'⟩])) =
      .ok (segsSeconds [⟨['1'], 'd'⟩, ⟨['2'], 'h'⟩, ⟨['3', '0'], 'm'⟩]) :=
  duration_sums_segments.1 _ (by decide) (by decide)

/-- C4 counterexample: "1:32aM" matches the claim's time-only pattern
with a case-insensitive meridiem marker, yet the resolver does not
prepend today's date to it — the source regex accepts only the uniform
spellings am, pm, AM and PM. -/
theorem timeOnly_mixed_case_not_prepended :
    timeOnlyMatchCI "1:32aM" = true ∧
    strToDatePre nowW "1:32aM" = "1:32aM" ∧
    strToDatePre nowW "1:32aM" ≠ formatDate nowW ++ " " ++ "1:32aM" :=
  ⟨by decide, by decide, by decide⟩

/-- C4 as amended: for every input matching the source's time-only
pattern (meridiem marker absent or spelt am, pm, AM or PM), the resolver
prepends today's date in YYYY-MM-DD form before parsing; in particular
"1:32pm" with defaultToNow false resolves to today at 13:32:00. -/
theorem timeOnly_uniform_case_prepended :
    (∀ (now : DateTime) (s : String), timeOnlyMatch s = true →
      strToDatePre now s = formatDate now ++ " " ++ s) ∧
    strToDate envW "1:32pm" "The --start date can't be parsed" false =
      .ok (some ⟨2026, 10, 11, 13, 32, 0⟩) := by
  refine ⟨fun now s h => ?_, by rfl⟩
  rw [strToDatePre, if_pos h]

/-- Witness for C4 (amended) at the spec's other time-only example. -/
theorem timeOnly_uniform_case_prepended_check :
    strToDatePre nowW "6:45am" = formatDate nowW ++ " " ++ "6:45am" :=
  timeOnly_uniform_case_prepended.1 nowW "6:45am" (by decide)

/-- C5 (the code against the claim): `isTty` unconditionally returns
true — the termios check is commented out in the source — so a run with
stdout redirected away from a terminal and without the no-colors flag
still resolves color to true, while the claim requires color to be true
only on an interactive terminal. -/
theorem color_ignores_terminal :
    (∀ env : Env, isTty env = true) ∧
    envRedir.stdoutIsTerminal = false ∧
    rawBase.noColor = false ∧
    (parseArgs envRedir rawBase).map Options.color = .ok true :=
  ⟨fun _ => rfl, rfl, rfl, by rfl⟩

/-- C6: an input holding a segment whose unit is not s, m, h or d, or
whose digit group fails to parse, makes the DurationParser take the
fatal error path, and no resolution run with such a range string
completes; in particular "5x" fails. -/
theorem duration_bad_segment_fatal :
    (∀ s : String, (∃ p ∈ findParts s.data, badPart p = true) →
      timeRangeToSeconds s = .error "Time range can't be parsed") ∧
    (∀ (env : Env) (raw : RawArgs),
      (∃ p ∈ findParts raw.timeRange.data, badPart p = true) →
      ∀ opts, parseArgs env raw ≠ .ok opts) ∧
    timeRangeToSeconds "5x" = .error "Time range can't be parsed" := by
  refine ⟨fun s h => timeRangeLoop_err _ 0 h, ?_, by decide⟩
  intro env raw h opts hok
  rw [parseArgs_ok_iff] at hok
  obtain ⟨sd, ed, rng, cfg, -, -, hrg, -, -⟩ := hok
  have herr := timeRangeLoop_err (findParts raw.timeRange.data) 0 h
  rw [timeRangeToSeconds] at hrg
  rw [herr] at hrg
  cases hrg

/-- Witness for C6 at the spec's example "5x". -/
theorem duration_bad_segment_fatal_check :
    timeRangeToSeconds "5x" = .error "Time range can't be parsed" :=
  duration_bad_segment_fatal.1 "5x" (by decide)

/-- C7: every successful resolution run has a strictly positive limit; a
non-positive user limit is replaced by the default 300, a positive one is
kept, and the limit never decides between success and failure. -/
theorem limit_positive_default (env : Env) (raw : RawArgs) (opts : Options)
    (h : parseArgs env raw = .ok opts) :
    0 < opts.limit ∧ (raw.limit ≤ 0 → opts.limit = 300) ∧
      (0 < raw.limit → opts.limit = raw.limit) ∧
      (∀ l₂ : Int, ∃ opts₂, parseArgs env { raw with limit := l₂ } = .ok opts₂) := by
  rw [parseArgs_ok_iff] at h
  obtain ⟨sd, ed, rng, cfg, hsd, hed, hrg, hcf, rfl⟩ := h
  refine ⟨?_, ?_, ?_, ?_⟩
  · show 0 < (if raw.limit ≤ 0 then DefaultLimit else raw.limit)
    split
    · decide
    · omega
  · intro hl
    show (if raw.limit ≤ 0 then DefaultLimit else raw.limit) = 300
    rw [if_pos hl]
    rfl
  · intro hl
    show (if raw.limit ≤ 0 then DefaultLimit else raw.limit) = raw.limit
    rw [if_neg (by omega)]
  · intro l₂
    refine ⟨{ service := raw.service
              query :=
                if 0 < raw.service.length then
                  "service:" ++ raw.service ++
                    (if 0 < raw.query.length then " AND " ++ raw.query else "")
                else raw.query
              limit := if l₂ ≤ 0 then DefaultLimit else l₂
              tail := if sd.isSome then false else raw.tail
              configPath := raw.configPath
              timeRange := rng
              startDate := sd
              endDate := ed
              json := raw.json
              serverConfig := cfg
              color := !raw.noColor && isTty env }, ?_⟩
    rw [parseArgs_ok_iff]
    exact ⟨sd, ed, rng, cfg, hsd, hed, hrg, hcf, rfl⟩

/-- Raw arguments with the spec's invalid limit example. -/
def rawC7 : RawArgs := { rawBase with limit := -5 }

/-- Witness for C7 at limit -5: the resolved limit is the default 300. -/
theorem limit_positive_default_check : optsBase.limit = 300 :=
  (limit_positive_default envW rawC7 optsBase (by rfl)).2.1 (by decide)

/-- C8: the path resolver rewrites exactly a leading "~/": such a path
becomes the home directory joined with the remainder, every other path —
including one with "~" mid-path — is returned unchanged. -/
theorem expandPath_tilde_only :
    (∀ home p : String, hasTildeSlash p = false → expandPath home p = p) ∧
    (∀ home p : String, hasTildeSlash p = true →
      expandPath home p = goJoin home (String.mk (p.data.drop 2))) ∧
    expandPath "/home/zach" "~/.doglog" = "/home/zach/.doglog" ∧
    expandPath "/home/zach" "/etc/~/foo" = "/etc/~/foo" := by
  refine ⟨?_, ?_, by decide, by decide⟩
  · intro home p h
    rw [expandPath, h]
    rfl
  · intro home p h
    rw [expandPath, h]
    rfl

/-- Witness for C8: a mid-path tilde is untouched and a leading "~/" is
joined with the home directory. -/
theorem expandPath_tilde_only_check :
    expandPath "/home/zach" "/var/log/~/x" = "/var/log/~/x" ∧
    expandPath "/home/zach" "~/cfg" =
      goJoin "/home/zach" (String.mk ("~/cfg".data.drop 2)) :=
  ⟨expandPath_tilde_only.1 "/home/zach" "/var/log/~/x" (by decide),
    expandPath_tilde_only.2.1 "/home/zach" "~/cfg" (by decide)⟩

/-- C9 counterexample: "100000000000000d" is a valid segment string
worth 8640000000000000000 seconds (within int64), but the parser of the
concatenation of two copies is not the sum of the parts: the 64-bit
accumulator overflows and wraps to -1166744073709551616. -/
theorem duration_concat_wraps :
    (∀ g ∈ [Seg.mk ['1', '0', '0', '0', '0', '0', '0', '0',
        '0', '0', '0', '0', '0', '0', '0'] 'd'], Seg.wf g) ∧
    String.mk (renderAll [Seg.mk ['1', '0', '0', '0', '0', '0', '0', '0',
        '0', '0', '0', '0', '0', '0', '0'] 'd']) = "100000000000000d" ∧
    timeRangeToSeconds "100000000000000d" = .ok 8640000000000000000 ∧
    timeRangeToSeconds ("100000000000000d" ++ "100000000000000d") =
      .ok (-1166744073709551616) ∧
    timeRangeToSeconds ("100000000000000d" ++ "100000000000000d") ≠
      .ok (8640000000000000000 + 8640000000000000000) :=
  ⟨by decide, by decide, by decide, by decide, by decide⟩

/-- C9 as amended: over well-formed segment strings whose combined total
fits Go's signed 64-bit int, the DurationParser is additive under
concatenation and independent of segment order; within that bound
duplicate units accumulate, e.g. "1h1h" gives 7200; beyond it the 64-bit
accumulator wraps. -/
theorem duration_concat_additive :
    (∀ la lb : List Seg, (∀ g ∈ la, Seg.wf g) → (∀ g ∈ lb, Seg.wf g) →
      segsSeconds la + segsSeconds lb ≤ int64Max →
      timeRangeToSeconds (String.mk (renderAll la ++ renderAll lb)) =
        .ok (segsSeconds la + segsSeconds lb) ∧
      timeRangeToSeconds (String.mk (renderAll la ++ renderAll lb)) =
        timeRangeToSeconds (String.mk (renderAll lb ++ renderAll la))) ∧
    timeRangeToSeconds "1h1h" = .ok 7200 := by
  refine ⟨fun la lb ha hb hle => ?_, by decide⟩
  have hab : ∀ g ∈ la ++ lb, Seg.wf g := by
    intro g hg
    rcases List.mem_append.mp hg with h | h
    exacts [ha g h, hb g h]
  have hba : ∀ g ∈ lb ++ la, Seg.wf g := by
    intro g hg
    rcases List.mem_append.mp hg with h | h
    exacts [hb g h, ha g h]
  have hle1 : segsSeconds (la ++ lb) ≤ int64Max := by
    rw [segsSeconds_append]
    exact hle
  have hle2 : segsSeconds (lb ++ la) ≤ int64Max := by
    rw [segsSeconds_append]
    linarith
  constructor
  · rw [← renderAll_append, timeRange_renderAll hab hle1, segsSeconds_append]
  · rw [← renderAll_append, ← renderAll_append, timeRange_renderAll hab hle1,
      timeRange_renderAll hba hle2, segsSeconds_append, segsSeconds_append,
      Int.add_comm]

/-- Witness for C9 at the duplicate-unit example "1h" ++ "1h". -/
theorem duration_concat_additive_check :
    timeRangeToSeconds (String.mk (renderAll [⟨['1'], 'h'⟩] ++ renderAll [⟨['1'], 'h'⟩])) =
      .ok (segsSeconds [⟨['1'], 'h'⟩] + segsSeconds [⟨['1'], 'h'⟩]) :=
  (duration_concat_additive.1 [⟨['1'], 'h'⟩] [⟨['1'], 'h'⟩]
    (by decide) (by decide) (by decide)).1

/-- C10: every successful resolution run carries a present end time —
with no end string the end date becomes the current moment, whether or
not a start time was supplied. -/
theorem endDate_always_present (env : Env) (raw : RawArgs) (opts : Options)
    (h : parseArgs env raw = .ok opts) : opts.endDate.isSome = true := by
  rw [parseArgs_ok_iff] at h
  obtain ⟨sd, ed, rng, cfg, -, hed, -, -, rfl⟩ := h
  exact strToDate_defaultToNow_some hed

/-- Witness for C10: the baseline run, which supplies neither a start nor
an end string, still resolves a present end date. -/
theorem endDate_always_present_check :
    optsBase.endDate.isSome = true ∧ rawBase.endStr = "" ∧ rawBase.start = "" :=
  ⟨endDate_always_present envW rawBase optsBase (by rfl), rfl, rfl⟩

end Doglog
